import Mathlib

/-!
Verification development for the VAT entry application
(source: `src/streamlit_app.py`, a tkinter/ttkbootstrap desktop app).

The monetary core is shallowly embedded over `ℚ`:
Python `Decimal` arithmetic on currency amounts is exact rational
arithmetic followed by `quantize(Decimal("0.01"), ROUND_HALF_UP)`,
modelled by `quantize_decimal` below (round to an integer number of
cents, ties away from zero, exactly Python's `ROUND_HALF_UP`).
-/

/-- Round half away from zero to an integer.  This is the rounding mode
`ROUND_HALF_UP` of Python's `decimal` module applied at integer scale. -/
def rhaz (x : ℚ) : ℤ :=
  if 0 ≤ x then ⌊x + 1/2⌋ else -⌊-x + 1/2⌋

/-- Embeds `quantize_decimal` (line 40): round a Decimal to 2 decimal
places with `ROUND_HALF_UP`, i.e. to a multiple of 1/100 with ties away
from zero.  (The `None`/conversion-failure guard of the Python helper is
not needed: the model passes rationals, never unparsable strings.) -/
def quantize_decimal (x : ℚ) : ℚ :=
  ((rhaz (x * 100) : ℤ) : ℚ) / 100

/-- Company codes, `COMPANIES` (line 21). -/
def COMPANIES : List String := ["SOL", "HELO"]

/-- Transaction types, `TRANSACTION_TYPES` (line 22). -/
def TRANSACTION_TYPES : List String := ["Sales", "Imports", "Local"]

/-- English month names, the `MONTH_NAMES` fallback list (lines 30-36);
the locale-aware branch produces the same list under an English locale. -/
def MONTH_NAMES : List String :=
  ["January", "February", "March", "April", "May", "June",
   "July", "August", "September", "October", "November", "December"]

/-- A transaction record as built in `_add_or_update_entry` (lines 449-459).
Amounts are stored as floats in the JSON snapshot; every stored amount is a
2-decimal currency value for which the float round-trip is exact, so `ℚ`
fields model them faithfully. -/
structure Transaction where
  id : String
  company : String
  month_year : String
  transaction_type : String
  invoice_no : String
  counterparty : String
  base : ℚ
  vat : ℚ
  total : ℚ

/-- Zero-padded two-digit rendering, Python's `f"{n:02d}"` for `n < 100`. -/
def pad2 (n : ℕ) : String :=
  if n < 10 then "0" ++ toString n else toString n

/-- The `f"{int(year)}-{month_num:02d}"` period key format
(`get_month_year_str`, line 61). -/
def fmtPeriod (year month : ℕ) : String :=
  toString year ++ "-" ++ pad2 month

/-- Position of an element in a list, Python's `list.index` wrapped in an
option (the source catches `ValueError` on a miss). -/
def monthIndex : List String → String → Option ℕ
  | [], _ => none
  | a :: rest, x => if x = a then some 0 else (monthIndex rest x).map (· + 1)

/-- The month number `MONTH_NAMES.index(month_name) + 1` used by
`get_month_year_str` and `get_prev_month_year_str` (lines 60, 71). -/
def monthNum (month_name : String) : Option ℕ :=
  (monthIndex MONTH_NAMES month_name).map (· + 1)

/-- Embeds `get_month_year_str` (lines 56-65): returns the `YYYY-MM` key of
the selected period.  `none` stands for the impure today-based fallback
taken when the month name is not in `MONTH_NAMES` (never reached from the
UI, whose month combobox is read-only over `MONTH_NAMES`). -/
def get_month_year_str (year : ℕ) (month_name : String) : Option String :=
  (monthNum month_name).map fun m => fmtPeriod year m

/-- The calendar month immediately before `(year, month)`, rendered as a
`YYYY-MM` key.  The source computes it as `date(year, month, 1) - 1 day`
then `strftime("%Y-%m")` (lines 72-75), which equals this calendar
arithmetic whenever the date is constructible, i.e. for `2 ≤ year`
(and for `year = 1` with `month ≥ 2`). -/
def prevPeriod (year month : ℕ) : String :=
  if month = 1 then fmtPeriod (year - 1) 12 else fmtPeriod year (month - 1)

/-- Embeds `get_prev_month_year_str` (lines 68-80); `none` again stands for
the impure today-based fallback on an unknown month name. -/
def get_prev_month_year_str (year : ℕ) (month_name : String) : Option String :=
  (monthNum month_name).map fun m => prevPeriod year m

/-! ## Reconciliation engine

The three tracer callbacks `_calculate_from_base` / `_calculate_from_vat` /
`_calculate_from_total` (lines 362-410).  Field contents are `Option ℚ`:
`none` models an empty or unparsable entry (`_safely_get_decimal`
returning `None`).  The pure functions below return `some` of the derived
pair on the success branch and `none` when the callback takes its
clear-or-leave branch; the `FormState` versions further down model the
effect on the form fields including the focus guard. -/

/-- Success branch of `_calculate_from_base` (lines 362-377): for a parsed
`base >= 0`, `vat = quantize(base * rate)` and `total = quantize(base + vat)`. -/
def calculate_from_base (base : Option ℚ) (vat_rate : ℚ) : Option (ℚ × ℚ) :=
  match base with
  | some b =>
    if 0 ≤ b then
      let v := quantize_decimal (b * vat_rate)
      some (v, quantize_decimal (b + v))
    else none
  | none => none

/-- Success branch of `_calculate_from_vat` (lines 379-393): requires a
parsed `vat >= 0` and `rate > 0`; `base = quantize(vat / rate)`,
`total = quantize(base + vat)`. -/
def calculate_from_vat (vat : Option ℚ) (vat_rate : ℚ) : Option (ℚ × ℚ) :=
  match vat with
  | some v =>
    if 0 ≤ v ∧ 0 < vat_rate then
      let b := quantize_decimal (v / vat_rate)
      some (b, quantize_decimal (b + v))
    else none
  | none => none

/-- Success branch of `_calculate_from_total` (lines 395-410): requires a
parsed `total >= 0` and `1 + rate > 0`; `base = quantize(total / (1 + rate))`
and `vat = quantize(total - base)` (the residual, line 403). -/
def calculate_from_total (total : Option ℚ) (vat_rate : ℚ) : Option (ℚ × ℚ) :=
  match total with
  | some t =>
    if 0 ≤ t ∧ 0 < 1 + vat_rate then
      let b := quantize_decimal (t / (1 + vat_rate))
      some (b, quantize_decimal (t - b))
    else none
  | none => none

/-- The widgets relevant to the focus guard.  `other` stands for any other
widget of the application. -/
inductive Widget
  | baseEntry
  | vatEntry
  | totalEntry
  | other
deriving DecidableEq

/-- The three amount fields plus the application's keyboard focus.
`focus = none` means no widget of the application currently has focus:
tkinter's `widget.focus_get()` returns the focused widget of the whole
application (or `None`), so the guard
`not self.tvsh_entry.focus_get() and not self.v_me_tvsh_entry.focus_get()`
(lines 372-373 and analogues) holds exactly when `focus = none`. -/
structure FormState where
  baseField : Option ℚ
  vatField : Option ℚ
  totalField : Option ℚ
  focus : Option Widget
deriving DecidableEq

/-- Effect of `_calculate_from_base` (lines 362-377) on the form fields:
on success the dependent fields `tvsh` and `v_me_tvsh` are overwritten;
otherwise they are cleared only when the focus guard passes, else the
state is left untouched. -/
def calculate_from_base_state (s : FormState) (vat_rate : ℚ) : FormState :=
  match calculate_from_base s.baseField vat_rate with
  | some (v, t) => { s with vatField := some v, totalField := some t }
  | none =>
    if s.focus = none then { s with vatField := none, totalField := none } else s

/-- Effect of `_calculate_from_vat` (lines 379-393) on the form fields. -/
def calculate_from_vat_state (s : FormState) (vat_rate : ℚ) : FormState :=
  match calculate_from_vat s.vatField vat_rate with
  | some (b, t) => { s with baseField := some b, totalField := some t }
  | none =>
    if s.focus = none then { s with baseField := none, totalField := none } else s

/-- Effect of `_calculate_from_total` (lines 395-410) on the form fields. -/
def calculate_from_total_state (s : FormState) (vat_rate : ℚ) : FormState :=
  match calculate_from_total s.totalField vat_rate with
  | some (b, v) => { s with baseField := some b, vatField := some v }
  | none =>
    if s.focus = none then { s with baseField := none, vatField := none } else s

/-- Outcome of submission validation, the error taxonomy of `_validate_inputs`. -/
inductive ValidationResult
  | incompleteInput
  | negativeAmount
  | inconsistentAmounts
  | ok (base vat total : ℚ)
deriving DecidableEq

/-- Embeds `_validate_inputs` (lines 414-439) on the three parsed amounts.
The source distinguishes two incomplete-input messages (all three absent
vs. some absent, lines 424-428); both are the `IncompleteInput` failure.
The `month_year` the Python function also returns is computed
independently by `get_month_year_str` and is not part of validation. -/
def validate_inputs (base vat total : Option ℚ) : ValidationResult :=
  match base, vat, total with
  | some b, some v, some t =>
    if b < 0 ∨ v < 0 ∨ t < 0 then .negativeAmount
    else if 1/100 < |b + v - t| then .inconsistentAmounts
    else .ok (quantize_decimal b) (quantize_decimal v) (quantize_decimal t)
  | _, _, _ => .incompleteInput

/-! ## Ledger aggregator

`_update_live_data_display` (lines 651-732) recomputes, for the selected
`(year, month)`, the per-company per-type monthly subtotals, the previous
month's carried-forward surplus, the balance, and then overwrites or
deletes each company's carry-forward entry for the selected period. -/

/-- The carry-forward store `self.carry_forward_data`,
`{company: {YYYY-MM: surplus}}`.  Reads in the recomputation go through
`.get(company, {}).get(prev_month_year, Decimal(0))` (line 690), which
never inserts, so a plain partial map models it; `none` means no entry. -/
def CFStore : Type := String → String → Option ℚ

/-- The filter of the monthly-totals loop (lines 663-668): the transaction
belongs to the selected period and carries a known company and a known
transaction type; reading the grouped dict at `(c, ttype)` then selects on
equality.  (The source also checks that the `company` and
`transaction_type` keys are present; record fields are always present in
the model.) -/
def typeMatches (cur c ttype : String) (t : Transaction) : Bool :=
  t.month_year == cur && COMPANIES.contains t.company &&
    TRANSACTION_TYPES.contains t.transaction_type &&
    t.company == c && t.transaction_type == ttype

/-- One column of `monthly_totals[c][ttype]` (lines 674-676): the loop
accumulates `quantize_decimal` of each matching transaction's amount. -/
def typeColSum (ts : List Transaction) (cur c ttype : String) (col : Transaction → ℚ) : ℚ :=
  ts.foldl (fun acc t => if typeMatches cur c ttype t then acc + quantize_decimal (col t) else acc) 0

/-- The three per-type columns displayed in the LIVE DATA grid. -/
structure TypeTotals where
  v_pa_tvsh : ℚ
  tvsh : ℚ
  v_me_tvsh : ℚ
deriving DecidableEq

/-- `monthly_totals[c][ttype]` for the selected period: base, vat and total
sums over the matching transactions (an absent dict entry reads as zeros). -/
def typeSubtotal (ts : List Transaction) (cur c ttype : String) : TypeTotals :=
  { v_pa_tvsh := typeColSum ts cur c ttype fun t => t.base
    tvsh := typeColSum ts cur c ttype fun t => t.vat
    v_me_tvsh := typeColSum ts cur c ttype fun t => t.total }

/-- `current_month_net_vat = sales_vat - imports_vat - local_vat`
(lines 684-686 and 693). -/
def net_vat (ts : List Transaction) (cur c : String) : ℚ :=
  (typeSubtotal ts cur c "Sales").tvsh - (typeSubtotal ts cur c "Imports").tvsh
    - (typeSubtotal ts cur c "Local").tvsh

/-- What the company block of the LIVE DATA display shows after one run of
the loop body (lines 680-719): the three per-type subtotal rows, the
previous month's carried-forward surplus (default 0), and
`balance = prev_surplus + net_vat`. -/
structure CompanyView where
  sales : TypeTotals
  imports : TypeTotals
  locals : TypeTotals
  prev_surplus : ℚ
  balance : ℚ
deriving DecidableEq

/-- The per-company computation of the loop body (lines 680-694). -/
def companyView (ts : List Transaction) (cur prev : String) (st : CFStore) (c : String) :
    CompanyView :=
  let prevS := (st c prev).getD 0
  { sales := typeSubtotal ts cur c "Sales"
    imports := typeSubtotal ts cur c "Imports"
    locals := typeSubtotal ts cur c "Local"
    prev_surplus := prevS
    balance := prevS + net_vat ts cur c }

/-- The carry-forward update of the loop body (lines 721-731): a negative
balance is stored (quantized) at `(company, current period)`, otherwise
any entry at that key is deleted. -/
def updateCarryForward (st : CFStore) (c cur : String) (balance : ℚ) : CFStore :=
  if balance < 0 then
    fun c2 p2 => if c2 = c ∧ p2 = cur then some (quantize_decimal balance) else st c2 p2
  else
    fun c2 p2 => if c2 = c ∧ p2 = cur then none else st c2 p2

/-- The `for company in COMPANIES` loop (lines 680-732): for each company
in order, compute its view from the store as updated so far, then update
that company's carry-forward entry for the current period. -/
def recomputeAux (ts : List Transaction) (cur prev : String) :
    List String → CFStore → CFStore × List (String × CompanyView)
  | [], st => (st, [])
  | c :: rest, st =>
    let v := companyView ts cur prev st c
    let r := recomputeAux ts cur prev rest (updateCarryForward st c cur v.balance)
    (r.1, (c, v) :: r.2)

/-- Embeds `_update_live_data_display` (lines 651-732): resolve the current
and previous period keys from the selection, then run the company loop.
`none` models the impure today-based fallback on an unknown month name
(unreachable from the read-only month combobox). -/
def update_live_data_display (ts : List Transaction) (year : ℕ) (month_name : String)
    (st : CFStore) : Option (CFStore × List (String × CompanyView)) :=
  match monthNum month_name with
  | some m => some (recomputeAux ts (fmtPeriod year m) (prevPeriod year m) COMPANIES st)
  | none => none

/-! ## Concrete fixtures used to instantiate the theorems -/

/-- One Imports transaction of 50 VAT for SOL in January 2024, matching the
carry-forward scenario of the specification. -/
def wTransactions : List Transaction :=
  [⟨"20240101000000000000", "SOL", "2024-01", "Imports", "inv-1", "acme", 0, 50, 50⟩]

/-- An empty carry-forward store. -/
def wStore : CFStore := fun _ _ => none

/-- The store produced by recomputing January 2024 over `wTransactions`
starting from the empty store. -/
def wStoreAfter : CFStore :=
  (recomputeAux wTransactions (fmtPeriod 2024 1) (prevPeriod 2024 1) COMPANIES wStore).1

/-! ## Rounding lemmas -/

theorem rhaz_intCast (k : ℤ) : rhaz (k : ℚ) = k := by
  unfold rhaz
  split
  · rw [add_comm, Int.floor_add_int]
    norm_num
  · rw [show -(k : ℚ) = ((-k : ℤ) : ℚ) by push_cast; ring]
    rw [add_comm, Int.floor_add_int]
    norm_num

theorem quantize_int_div (k : ℤ) : quantize_decimal ((k : ℚ) / 100) = (k : ℚ) / 100 := by
  unfold quantize_decimal
  rw [div_mul_cancel₀ (k : ℚ) (by norm_num), rhaz_intCast]

theorem exists_quantize (x : ℚ) : ∃ k : ℤ, quantize_decimal x = (k : ℚ) / 100 :=
  ⟨rhaz (x * 100), rfl⟩

theorem quantize_idem (x : ℚ) :
    quantize_decimal (quantize_decimal x) = quantize_decimal x := by
  obtain ⟨k, hk⟩ := exists_quantize x
  rw [hk, quantize_int_div]

theorem rhaz_nonneg (x : ℚ) (hx : 0 ≤ x) : 0 ≤ rhaz x := by
  unfold rhaz
  rw [if_pos hx]
  exact Int.le_floor.mpr (by push_cast; linarith)

theorem quantize_nonneg (x : ℚ) (hx : 0 ≤ x) : 0 ≤ quantize_decimal x := by
  unfold quantize_decimal
  have h := rhaz_nonneg (x * 100) (by positivity)
  positivity

/-- Adding a whole number of (nonnegative) cents to a nonnegative amount
commutes with rounding to cents. -/
theorem quantize_add_cents (a : ℚ) (k : ℤ) (ha : 0 ≤ a) (hk : 0 ≤ k) :
    quantize_decimal (a + (k : ℚ) / 100) = quantize_decimal a + (k : ℚ) / 100 := by
  unfold quantize_decimal
  have h1 : (a + (k : ℚ) / 100) * 100 = a * 100 + (k : ℚ) := by
    field_simp
  rw [h1]
  unfold rhaz
  rw [if_pos (by positivity), if_pos (by positivity)]
  rw [show a * 100 + (k : ℚ) + 1/2 = a * 100 + 1/2 + (k : ℚ) by ring, Int.floor_add_int]
  push_cast
  ring

/-- Sums of whole-cent amounts are fixed by rounding to cents. -/
theorem quantize_cent_sum (j k : ℤ) :
    quantize_decimal ((j : ℚ) / 100 + (k : ℚ) / 100) = (j : ℚ) / 100 + (k : ℚ) / 100 := by
  rw [show (j : ℚ) / 100 + (k : ℚ) / 100 = ((j + k : ℤ) : ℚ) / 100 by push_cast; ring]
  rw [quantize_int_div]

theorem quantize_cent_sub (j k : ℤ) :
    quantize_decimal ((j : ℚ) / 100 - (k : ℚ) / 100) = (j : ℚ) / 100 - (k : ℚ) / 100 := by
  rw [show (j : ℚ) / 100 - (k : ℚ) / 100 = ((j - k : ℤ) : ℚ) / 100 by push_cast; ring]
  rw [quantize_int_div]

/-- A 2-decimal-fixed amount plus a rounded amount needs no further
rounding when both live on the cent grid. -/
theorem quantize_add_of_fixed (b x : ℚ) (hb : quantize_decimal b = b) :
    quantize_decimal (b + quantize_decimal x) = b + quantize_decimal x := by
  obtain ⟨j, hj⟩ := exists_quantize b
  obtain ⟨k, hk⟩ := exists_quantize x
  have hbj : b = (j : ℚ) / 100 := by rw [← hb, hj]
  rw [hbj, hk, quantize_cent_sum]

theorem quantize_sub_of_fixed (t x : ℚ) (ht : quantize_decimal t = t) :
    quantize_decimal (t - quantize_decimal x) = t - quantize_decimal x := by
  obtain ⟨j, hj⟩ := exists_quantize t
  obtain ⟨k, hk⟩ := exists_quantize x
  have htj : t = (j : ℚ) / 100 := by rw [← ht, hj]
  rw [htj, hk, quantize_cent_sub]

/-- Claim C5: validation of a submitted base/vat/total triple fails with
`IncompleteInput` when any of the three is unparsable or absent, with
`NegativeAmount` when all parse and any is negative, with
`InconsistentAmounts` when all parse, none is negative and
`|base + vat - total| > 0.01`, and otherwise succeeds with the three
values rounded to cents; `(10, 2, 13)` is rejected as inconsistent while
`(10, 2, 12)` is accepted. -/
theorem C5_validate_triple :
    (∀ base vat total : Option ℚ, (base = none ∨ vat = none ∨ total = none) →
        validate_inputs base vat total = ValidationResult.incompleteInput) ∧
    (∀ b v t : ℚ, (b < 0 ∨ v < 0 ∨ t < 0) →
        validate_inputs (some b) (some v) (some t) = ValidationResult.negativeAmount) ∧
    (∀ b v t : ℚ, 0 ≤ b → 0 ≤ v → 0 ≤ t → 1/100 < |b + v - t| →
        validate_inputs (some b) (some v) (some t) = ValidationResult.inconsistentAmounts) ∧
    (∀ b v t : ℚ, 0 ≤ b → 0 ≤ v → 0 ≤ t → |b + v - t| ≤ 1/100 →
        validate_inputs (some b) (some v) (some t) =
          ValidationResult.ok (quantize_decimal b) (quantize_decimal v) (quantize_decimal t)) ∧
    validate_inputs (some 10) (some 2) (some 13) = ValidationResult.inconsistentAmounts ∧
    validate_inputs (some 10) (some 2) (some 12) = ValidationResult.ok 10 2 12 := by
  refine ⟨?_, ?_, ?_, ?_, ?_, ?_⟩
  · intro base vat total h
    cases base <;> cases vat <;> cases total <;> simp [validate_inputs] at h ⊢
  · intro b v t h
    simp only [validate_inputs]
    rw [if_pos h]
  · intro b v t hb hv ht h
    simp only [validate_inputs]
    rw [if_neg (by push_neg; exact ⟨hb, hv, ht⟩), if_pos h]
  · intro b v t hb hv ht h
    simp only [validate_inputs]
    rw [if_neg (by push_neg; exact ⟨hb, hv, ht⟩), if_neg (not_lt.mpr h)]
  · norm_num [validate_inputs]
  · norm_num [validate_inputs, quantize_decimal, rhaz]

theorem C5_validate_triple_witness :
    validate_inputs none (some 2) (some 2) = ValidationResult.incompleteInput ∧
    validate_inputs (some (-1)) (some 2) (some 1) = ValidationResult.negativeAmount ∧
    (0 ≤ (10 : ℚ) ∧ 0 ≤ (2 : ℚ) ∧ 0 ≤ (13 : ℚ) ∧ 1/100 < |(10 : ℚ) + 2 - 13|) ∧
    validate_inputs (some 10) (some 2) (some 13) = ValidationResult.inconsistentAmounts ∧
    |(10 : ℚ) + 2 - 12| ≤ 1/100 ∧
    validate_inputs (some 10) (some 2) (some 12) =
      ValidationResult.ok (quantize_decimal 10) (quantize_decimal 2) (quantize_decimal 12) := by
  refine ⟨C5_validate_triple.1 none (some 2) (some 2) (Or.inl rfl),
          C5_validate_triple.2.1 (-1) 2 1 (by norm_num),
          ⟨by norm_num, by norm_num, by norm_num, by norm_num⟩,
          C5_validate_triple.2.2.1 10 2 13 (by norm_num) (by norm_num) (by norm_num) (by norm_num),
          by norm_num,
          C5_validate_triple.2.2.2.1 10 2 12 (by norm_num) (by norm_num) (by norm_num) (by norm_num)⟩

/-- Claim C7: deriving from a nonnegative base with positive rate yields
`vat = round2(base * rate)` and `total = round2(base + vat)`; the results
satisfy `base + vat = total` exactly at 2-decimal precision (the rounded
base plus the vat is the total, with no further rounding); with rate 0.18
and base 100 this gives vat 18 and total 118. -/
theorem C7_calculate_from_base :
    (∀ b rate : ℚ, 0 ≤ b → 0 < rate →
        calculate_from_base (some b) rate =
          some (quantize_decimal (b * rate),
                quantize_decimal (b + quantize_decimal (b * rate)))) ∧
    (∀ b rate : ℚ, 0 ≤ b → 0 < rate →
        quantize_decimal (b + quantize_decimal (b * rate)) =
          quantize_decimal b + quantize_decimal (b * rate)) ∧
    (∀ b rate : ℚ, 0 ≤ b → 0 < rate → quantize_decimal b = b →
        calculate_from_base (some b) rate =
          some (quantize_decimal (b * rate), b + quantize_decimal (b * rate))) ∧
    calculate_from_base (some 100) (18/100) = some (18, 118) := by
  have key : ∀ b rate : ℚ, 0 ≤ b → 0 < rate →
      quantize_decimal (b + quantize_decimal (b * rate)) =
        quantize_decimal b + quantize_decimal (b * rate) := by
    intro b rate hb hr
    obtain ⟨k, hk⟩ := exists_quantize (b * rate)
    have hk0 : (0 : ℚ) ≤ (k : ℚ) := by
      have h3 := quantize_nonneg (b * rate) (mul_nonneg hb hr.le)
      rw [hk] at h3
      have h4 := mul_nonneg h3 (show (0 : ℚ) ≤ 100 by norm_num)
      rwa [div_mul_cancel₀ _ (show (100 : ℚ) ≠ 0 by norm_num)] at h4
    rw [hk, quantize_add_cents b k hb (by exact_mod_cast hk0)]
  refine ⟨?_, key, ?_, ?_⟩
  · intro b rate hb _
    simp only [calculate_from_base]
    rw [if_pos hb]
  · intro b rate hb hr hfix
    simp only [calculate_from_base]
    rw [if_pos hb, key b rate hb hr, hfix]
  · norm_num [calculate_from_base, quantize_decimal, rhaz]

theorem C7_calculate_from_base_witness :
    (0 ≤ (100 : ℚ) ∧ 0 < (18/100 : ℚ) ∧ quantize_decimal 100 = 100) ∧
    calculate_from_base (some 100) (18/100) =
      some (quantize_decimal (100 * (18/100)), 100 + quantize_decimal (100 * (18/100))) := by
  refine ⟨⟨by norm_num, by norm_num, by norm_num [quantize_decimal, rhaz]⟩, ?_⟩
  exact C7_calculate_from_base.2.2.1 100 (18/100) (by norm_num) (by norm_num)
    (by norm_num [quantize_decimal, rhaz])

/-- Claim C6: deriving from a nonnegative total with `1 + rate > 0` yields
`base = round2(total / (1 + rate))` and `vat = round2(total - base)` (the
residual), so that for a total already on the cent grid the round-trip
`base + vat = total` holds exactly; with rate 0.18 and total 118 this
gives base 100 and vat 18. -/
theorem C6_calculate_from_total :
    (∀ t rate : ℚ, 0 ≤ t → 0 < 1 + rate →
        calculate_from_total (some t) rate =
          some (quantize_decimal (t / (1 + rate)),
                quantize_decimal (t - quantize_decimal (t / (1 + rate))))) ∧
    (∀ t rate b v : ℚ, 0 ≤ t → 0 < 1 + rate → quantize_decimal t = t →
        calculate_from_total (some t) rate = some (b, v) → b + v = t) ∧
    calculate_from_total (some 118) (18/100) = some (100, 18) := by
  refine ⟨?_, ?_, ?_⟩
  · intro t rate ht hr
    simp only [calculate_from_total]
    rw [if_pos ⟨ht, hr⟩]
  · intro t rate b v ht hr hfix h
    simp only [calculate_from_total] at h
    rw [if_pos ⟨ht, hr⟩] at h
    have hb : b = quantize_decimal (t / (1 + rate)) := by
      injection h with h2
      exact (congrArg Prod.fst h2).symm
    have hv : v = quantize_decimal (t - quantize_decimal (t / (1 + rate))) := by
      injection h with h2
      exact (congrArg Prod.snd h2).symm
    rw [hb, hv, quantize_sub_of_fixed t (t / (1 + rate)) hfix]
    ring
  · norm_num [calculate_from_total, quantize_decimal, rhaz]

theorem C6_calculate_from_total_witness :
    (0 ≤ (118 : ℚ) ∧ 0 < 1 + (18/100 : ℚ) ∧ quantize_decimal 118 = 118 ∧
      calculate_from_total (some 118) (18/100) = some (100, 18)) ∧
    (100 : ℚ) + 18 = 118 := by
  have hc : calculate_from_total (some 118) ((18 : ℚ)/100) = some (100, 18) := by
    norm_num [calculate_from_total, quantize_decimal, rhaz]
  exact ⟨⟨by norm_num, by norm_num, by norm_num [quantize_decimal, rhaz], hc⟩,
         C6_calculate_from_total.2.1 118 (18/100) 100 18 (by norm_num) (by norm_num)
           (by norm_num [quantize_decimal, rhaz]) hc⟩

/-- Counterexample to claim C8 as stated: the claim requires a derivation
for every parsable vat once `rate > 0`, but the source also requires
`vat >= 0` (line 384), so for the parsable input `vat = -1` at rate 0.18
the callback signals incomplete (derives nothing) instead of producing
`base = round2(vat / rate)` and `total = round2(base + vat)`. -/
theorem C8_cex_negative_vat :
    ¬ (calculate_from_vat (some (-1)) (18/100) =
        some (quantize_decimal ((-1) / (18/100)),
              quantize_decimal (quantize_decimal ((-1) / (18/100)) + (-1)))) := by
  norm_num [calculate_from_vat]
  exact fun h => Option.noConfusion h

/-- Claim C8 (amended): deriving from vat requires `rate > 0` and a
parsable nonnegative vat, in which case `base = round2(vat / rate)` and
`total = round2(base + vat)`; it signals incomplete (deriving nothing)
when `rate <= 0`, when the vat input is invalid or absent, or when the
parsed vat is negative. -/
theorem C8_calculate_from_vat :
    (∀ v rate : ℚ, 0 ≤ v → 0 < rate →
        calculate_from_vat (some v) rate =
          some (quantize_decimal (v / rate),
                quantize_decimal (quantize_decimal (v / rate) + v))) ∧
    (∀ rate : ℚ, calculate_from_vat none rate = none) ∧
    (∀ v rate : ℚ, rate ≤ 0 → calculate_from_vat (some v) rate = none) ∧
    (∀ v rate : ℚ, v < 0 → calculate_from_vat (some v) rate = none) := by
  refine ⟨?_, ?_, ?_, ?_⟩
  · intro v rate hv hr
    simp only [calculate_from_vat]
    rw [if_pos ⟨hv, hr⟩]
  · intro rate
    rfl
  · intro v rate hr
    simp only [calculate_from_vat]
    rw [if_neg]
    rintro ⟨-, h2⟩
    linarith
  · intro v rate hv
    simp only [calculate_from_vat]
    rw [if_neg]
    rintro ⟨h1, -⟩
    linarith

theorem C8_calculate_from_vat_witness :
    (0 ≤ (18 : ℚ) ∧ 0 < (18/100 : ℚ)) ∧
    calculate_from_vat (some 18) (18/100) =
      some (quantize_decimal (18 / (18/100)),
            quantize_decimal (quantize_decimal (18 / (18/100)) + 18)) ∧
    calculate_from_vat (some 5) 0 = none ∧
    calculate_from_vat (some (-3)) (18/100) = none := by
  exact ⟨⟨by norm_num, by norm_num⟩,
         C8_calculate_from_vat.1 18 (18/100) (by norm_num) (by norm_num),
         C8_calculate_from_vat.2.2.1 5 0 le_rfl,
         C8_calculate_from_vat.2.2.2 (-3) (18/100) (by norm_num)⟩

/-- Claim C9: when the source field of a derivation is absent or invalid,
the two dependent fields are cleared only if no dependent field holds the
keyboard focus (the guard in the source compares against the focused
widget of the whole application); in particular, if either dependent
field is focused the whole form state is left unchanged. -/
theorem C9_focus_guard :
    (∀ (s : FormState) (rate : ℚ),
        (s.baseField = none ∨ ∃ b, s.baseField = some b ∧ b < 0) →
        (s.focus = some Widget.vatEntry ∨ s.focus = some Widget.totalEntry) →
        calculate_from_base_state s rate = s) ∧
    (∀ (s : FormState) (rate : ℚ),
        (s.baseField = none ∨ ∃ b, s.baseField = some b ∧ b < 0) →
        calculate_from_base_state s rate ≠ s → s.focus = none) ∧
    (∀ (s : FormState) (rate : ℚ),
        (s.vatField = none ∨ ∃ v, s.vatField = some v ∧ v < 0) →
        (s.focus = some Widget.baseEntry ∨ s.focus = some Widget.totalEntry) →
        calculate_from_vat_state s rate = s) ∧
    (∀ (s : FormState) (rate : ℚ),
        (s.vatField = none ∨ ∃ v, s.vatField = some v ∧ v < 0) →
        calculate_from_vat_state s rate ≠ s → s.focus = none) ∧
    (∀ (s : FormState) (rate : ℚ),
        (s.totalField = none ∨ ∃ t, s.totalField = some t ∧ t < 0) →
        (s.focus = some Widget.baseEntry ∨ s.focus = some Widget.vatEntry) →
        calculate_from_total_state s rate = s) ∧
    (∀ (s : FormState) (rate : ℚ),
        (s.totalField = none ∨ ∃ t, s.totalField = some t ∧ t < 0) →
        calculate_from_total_state s rate ≠ s → s.focus = none) := by
  have hbase : ∀ (s : FormState) (rate : ℚ),
      (s.baseField = none ∨ ∃ b, s.baseField = some b ∧ b < 0) →
      calculate_from_base s.baseField rate = none := by
    intro s rate h
    rcases h with h | ⟨b, hb, hneg⟩
    · rw [h]; rfl
    · rw [hb]
      simp only [calculate_from_base]
      rw [if_neg (not_le.mpr hneg)]
  have hvat : ∀ (s : FormState) (rate : ℚ),
      (s.vatField = none ∨ ∃ v, s.vatField = some v ∧ v < 0) →
      calculate_from_vat s.vatField rate = none := by
    intro s rate h
    rcases h with h | ⟨v, hv, hneg⟩
    · rw [h]; rfl
    · rw [hv]
      simp only [calculate_from_vat]
      rw [if_neg]
      rintro ⟨h1, -⟩
      linarith
  have htotal : ∀ (s : FormState) (rate : ℚ),
      (s.totalField = none ∨ ∃ t, s.totalField = some t ∧ t < 0) →
      calculate_from_total s.totalField rate = none := by
    intro s rate h
    rcases h with h | ⟨t, ht, hneg⟩
    · rw [h]; rfl
    · rw [ht]
      simp only [calculate_from_total]
      rw [if_neg]
      rintro ⟨h1, -⟩
      linarith
  refine ⟨?_, ?_, ?_, ?_, ?_, ?_⟩
  · intro s rate hinv hfoc
    simp only [calculate_from_base_state, hbase s rate hinv]
    rw [if_neg]
    rcases hfoc with h | h <;> simp [h]
  · intro s rate hinv hne
    by_contra hf
    apply hne
    simp only [calculate_from_base_state, hbase s rate hinv]
    rw [if_neg hf]
  · intro s rate hinv hfoc
    simp only [calculate_from_vat_state, hvat s rate hinv]
    rw [if_neg]
    rcases hfoc with h | h <;> simp [h]
  · intro s rate hinv hne
    by_contra hf
    apply hne
    simp only [calculate_from_vat_state, hvat s rate hinv]
    rw [if_neg hf]
  · intro s rate hinv hfoc
    simp only [calculate_from_total_state, htotal s rate hinv]
    rw [if_neg]
    rcases hfoc with h | h <;> simp [h]
  · intro s rate hinv hne
    by_contra hf
    apply hne
    simp only [calculate_from_total_state, htotal s rate hinv]
    rw [if_neg hf]

theorem C9_focus_guard_witness :
    ((FormState.mk none (some 5) (some 5) (some Widget.vatEntry)).baseField = none ∨
      ∃ b, (FormState.mk none (some 5) (some 5) (some Widget.vatEntry)).baseField = some b ∧ b < 0) ∧
    ((FormState.mk none (some 5) (some 5) (some Widget.vatEntry)).focus = some Widget.vatEntry ∨
      (FormState.mk none (some 5) (some 5) (some Widget.vatEntry)).focus = some Widget.totalEntry) ∧
    calculate_from_base_state (FormState.mk none (some 5) (some 5) (some Widget.vatEntry)) (18/100) =
      FormState.mk none (some 5) (some 5) (some Widget.vatEntry) := by
  exact ⟨Or.inl rfl, Or.inl rfl,
         C9_focus_guard.1 (FormState.mk none (some 5) (some 5) (some Widget.vatEntry)) (18/100)
           (Or.inl rfl) (Or.inl rfl)⟩

/-! ## Period-key lemmas -/

theorem fmtPeriod_data (y m : ℕ) :
    (fmtPeriod y m).data = (toString y).data ++ ('-' :: (pad2 m).data) := by
  simp [fmtPeriod]

/-- The current period key never coincides with the previous period key. -/
theorem fmtPeriod_ne_prevPeriod (y m : ℕ) (h1 : 1 ≤ m) (h2 : m ≤ 12) :
    fmtPeriod y m ≠ prevPeriod y m := by
  intro h
  have hd := congrArg String.data h
  by_cases hm1 : m = 1
  · subst hm1
    rw [show prevPeriod y 1 = fmtPeriod (y - 1) 12 from rfl] at hd
    rw [fmtPeriod_data, fmtPeriod_data] at hd
    have h12 : ('-' :: (pad2 1).data).length = ('-' :: (pad2 12).data).length := by decide
    have hsuf := (List.append_inj' hd h12).2
    exact absurd hsuf (by decide)
  · rw [show prevPeriod y m = fmtPeriod y (m - 1) by simp [prevPeriod, hm1]] at hd
    rw [fmtPeriod_data, fmtPeriod_data] at hd
    have hsuf := List.append_cancel_left hd
    injection hsuf with hhead htail
    have h3 : 2 ≤ m := by omega
    interval_cases m <;> exact absurd htail (by decide)

theorem monthIndex_lt_length (l : List String) (x : String) (i : ℕ)
    (h : monthIndex l x = some i) : i < l.length := by
  induction l generalizing i with
  | nil => simp [monthIndex] at h
  | cons a rest ih =>
    simp only [monthIndex] at h
    split at h
    · injection h with h2
      simp only [List.length_cons]
      omega
    · obtain ⟨j, hj, hji⟩ := Option.map_eq_some'.mp h
      have := ih j hj
      simp only [List.length_cons]
      omega

theorem monthNum_bounds (mn : String) (m : ℕ) (h : monthNum mn = some m) :
    1 ≤ m ∧ m ≤ 12 := by
  simp only [monthNum] at h
  obtain ⟨i, hi, him⟩ := Option.map_eq_some'.mp h
  have := monthIndex_lt_length MONTH_NAMES mn i hi
  have hlen : MONTH_NAMES.length = 12 := by decide
  omega

/-! ## Carry-forward store lemmas -/

theorem updateCarryForward_apply (st : CFStore) (c cur : String) (b : ℚ) (c2 p2 : String) :
    updateCarryForward st c cur b c2 p2 =
      if c2 = c ∧ p2 = cur then (if b < 0 then some (quantize_decimal b) else none)
      else st c2 p2 := by
  unfold updateCarryForward
  by_cases hb : b < 0
  · rw [if_pos hb]
    by_cases hk : c2 = c ∧ p2 = cur
    · rw [if_pos hk, if_pos hk, if_pos hb]
    · rw [if_neg hk, if_neg hk]
  · rw [if_neg hb]
    by_cases hk : c2 = c ∧ p2 = cur
    · rw [if_pos hk, if_pos hk, if_neg hb]
    · rw [if_neg hk, if_neg hk]

theorem updateCarryForward_frame (st : CFStore) (c cur : String) (b : ℚ) (c2 p2 : String)
    (h : ¬(c2 = c ∧ p2 = cur)) : updateCarryForward st c cur b c2 p2 = st c2 p2 := by
  rw [updateCarryForward_apply, if_neg h]

/-- The company view reads the store only at `(c, prev)`. -/
theorem companyView_congr (ts : List Transaction) (cur prev : String) (st1 st2 : CFStore)
    (c : String) (h : st1 c prev = st2 c prev) :
    companyView ts cur prev st1 c = companyView ts cur prev st2 c := by
  unfold companyView
  rw [h]

theorem companyView_prev_surplus (ts : List Transaction) (cur prev : String) (st : CFStore)
    (c : String) : (companyView ts cur prev st c).prev_surplus = (st c prev).getD 0 := rfl

theorem companyView_balance (ts : List Transaction) (cur prev : String) (st : CFStore)
    (c : String) :
    (companyView ts cur prev st c).balance = (st c prev).getD 0 + net_vat ts cur c := rfl

/-- Unfolding of the company loop over the two known companies. -/
theorem recomputeAux_companies (ts : List Transaction) (cur prev : String) (st : CFStore) :
    recomputeAux ts cur prev COMPANIES st =
      (updateCarryForward
         (updateCarryForward st "SOL" cur (companyView ts cur prev st "SOL").balance)
         "HELO" cur
         (companyView ts cur prev
            (updateCarryForward st "SOL" cur (companyView ts cur prev st "SOL").balance)
            "HELO").balance,
       [("SOL", companyView ts cur prev st "SOL"),
        ("HELO", companyView ts cur prev
           (updateCarryForward st "SOL" cur (companyView ts cur prev st "SOL").balance)
           "HELO")]) := rfl

/-! ## Subtotal lemmas -/

theorem typeColSum_foldl_shift (cur c ttype : String) (col : Transaction → ℚ)
    (ts : List Transaction) :
    ∀ a : ℚ,
      ts.foldl (fun acc t => if typeMatches cur c ttype t then acc + quantize_decimal (col t)
        else acc) a
      = a + ts.foldl (fun acc t => if typeMatches cur c ttype t then acc + quantize_decimal (col t)
          else acc) 0 := by
  induction ts with
  | nil => intro a; simp
  | cons t ts ih =>
    intro a
    simp only [List.foldl_cons]
    rw [ih (if typeMatches cur c ttype t then a + quantize_decimal (col t) else a),
        ih (if typeMatches cur c ttype t then 0 + quantize_decimal (col t) else 0)]
    by_cases h : typeMatches cur c ttype t
    · rw [if_pos h, if_pos h]
      ring
    · rw [if_neg h, if_neg h]
      ring

theorem typeColSum_eq_sum (ts : List Transaction) (cur c ttype : String)
    (col : Transaction → ℚ) :
    typeColSum ts cur c ttype col =
      ((ts.filter (typeMatches cur c ttype)).map fun t => quantize_decimal (col t)).sum := by
  induction ts with
  | nil => rfl
  | cons t ts ih =>
    simp only [typeColSum, List.foldl_cons] at ih ⊢
    rw [typeColSum_foldl_shift]
    by_cases h : typeMatches cur c ttype t
    · rw [if_pos h, List.filter_cons_of_pos h, List.map_cons, List.sum_cons, ih]
      ring
    · rw [if_neg h, List.filter_cons_of_neg h, ih]
      ring

/-- For a known company and a known transaction type, the grouped filter
reduces to exact matching on period, company and type. -/
theorem typeMatches_eq (cur c ttype : String) (hc : c ∈ COMPANIES)
    (ht : ttype ∈ TRANSACTION_TYPES) (t : Transaction) :
    typeMatches cur c ttype t =
      (t.month_year == cur && t.company == c && t.transaction_type == ttype) := by
  simp only [typeMatches]
  cases hC : t.company == c with
  | false => simp [hC]
  | true =>
    cases hD : t.transaction_type == ttype with
    | false => simp [hC, hD]
    | true =>
      have h1 : t.company = c := beq_iff_eq.mp hC
      have h2 : t.transaction_type = ttype := beq_iff_eq.mp hD
      rw [h1, h2]
      simp [List.elem_eq_true_of_mem hc, List.elem_eq_true_of_mem ht,
            decide_eq_true hc, decide_eq_true ht]

/-! ## Run-shape lemmas -/

theorem update_live_data_display_eq (ts : List Transaction) (year : ℕ) (mn : String) (m : ℕ)
    (st stF : CFStore) (vs : List (String × CompanyView))
    (hm : monthNum mn = some m)
    (h : update_live_data_display ts year mn st = some (stF, vs)) :
    stF = updateCarryForward
            (updateCarryForward st "SOL" (fmtPeriod year m)
              (companyView ts (fmtPeriod year m) (prevPeriod year m) st "SOL").balance)
            "HELO" (fmtPeriod year m)
            (companyView ts (fmtPeriod year m) (prevPeriod year m)
              (updateCarryForward st "SOL" (fmtPeriod year m)
                (companyView ts (fmtPeriod year m) (prevPeriod year m) st "SOL").balance)
              "HELO").balance ∧
    vs = [("SOL", companyView ts (fmtPeriod year m) (prevPeriod year m) st "SOL"),
          ("HELO", companyView ts (fmtPeriod year m) (prevPeriod year m)
             (updateCarryForward st "SOL" (fmtPeriod year m)
               (companyView ts (fmtPeriod year m) (prevPeriod year m) st "SOL").balance)
             "HELO")] := by
  simp only [update_live_data_display, hm, recomputeAux_companies] at h
  injection h with h2
  exact ⟨(congrArg Prod.fst h2).symm, (congrArg Prod.snd h2).symm⟩

theorem updateCF_other_company (st : CFStore) (c cur : String) (b : ℚ) (c2 p2 : String)
    (h : c2 ≠ c) : updateCarryForward st c cur b c2 p2 = st c2 p2 :=
  updateCarryForward_frame st c cur b c2 p2 fun hk => h hk.1

/-- A full company loop never changes the store at a key whose period is
not the current one; in particular reads at the previous period are
unaffected. -/
theorem store_read_after_run (st : CFStore) (cur : String) (b1 b2 : ℚ) (c p : String)
    (hp : p ≠ cur) :
    updateCarryForward (updateCarryForward st "SOL" cur b1) "HELO" cur b2 c p = st c p := by
  rw [updateCarryForward_frame, updateCarryForward_frame]
  · rintro ⟨-, hk⟩
    exact hp hk
  · rintro ⟨-, hk⟩
    exact hp hk

theorem view_after_run (ts : List Transaction) (cur prev : String) (st : CFStore)
    (b1 b2 : ℚ) (c : String) (hne : prev ≠ cur) :
    companyView ts cur prev
        (updateCarryForward (updateCarryForward st "SOL" cur b1) "HELO" cur b2) c =
      companyView ts cur prev st c :=
  companyView_congr ts cur prev _ st c (store_read_after_run st cur b1 b2 c prev hne)

/-- Claim C2: for every selected company and period, the recomputed view
shows `balance = prevSurplus + netVat`, where `prevSurplus` is the
carry-forward value stored for that company at the calendar month
immediately preceding the period (with year rollover), defaulting to 0
when no entry is stored; `previousPeriod` of January 2024 is `2023-12`. -/
theorem C2_balance_formula :
    (∀ (ts : List Transaction) (year : ℕ) (mn : String) (m : ℕ) (st stF : CFStore)
        (vs : List (String × CompanyView)),
        monthNum mn = some m → 2 ≤ year →
        update_live_data_display ts year mn st = some (stF, vs) →
        ∀ c v, (c, v) ∈ vs →
          v.prev_surplus = (st c (prevPeriod year m)).getD 0 ∧
          v.balance = v.prev_surplus + net_vat ts (fmtPeriod year m) c ∧
          get_prev_month_year_str year mn = some (prevPeriod year m)) ∧
    get_prev_month_year_str 2024 "January" = some "2023-12" := by
  constructor
  · intro ts year mn m st stF vs hm hy h c v hmem
    obtain ⟨hst, hvs⟩ := update_live_data_display_eq ts year mn m st stF vs hm h
    subst hst hvs
    have hprev : get_prev_month_year_str year mn = some (prevPeriod year m) := by
      simp [get_prev_month_year_str, hm]
    simp only [List.mem_cons, Prod.mk.injEq, List.not_mem_nil, or_false] at hmem
    rcases hmem with ⟨rfl, rfl⟩ | ⟨rfl, rfl⟩
    · exact ⟨rfl, rfl, hprev⟩
    · refine ⟨?_, rfl, hprev⟩
      rw [companyView_prev_surplus,
          updateCF_other_company _ _ _ _ _ _ (by decide : ("HELO" : String) ≠ "SOL")]
  · rfl

theorem C2_balance_formula_witness :
    (monthNum "March" = some 3 ∧ 2 ≤ 2024) ∧
    ((companyView [] (fmtPeriod 2024 3) (prevPeriod 2024 3)
        (fun _ _ => (none : Option ℚ)) "SOL").prev_surplus =
      (((fun (_ _ : String) => (none : Option ℚ)) "SOL" (prevPeriod 2024 3)).getD 0) ∧
     (companyView [] (fmtPeriod 2024 3) (prevPeriod 2024 3)
        (fun _ _ => (none : Option ℚ)) "SOL").balance =
      (companyView [] (fmtPeriod 2024 3) (prevPeriod 2024 3)
        (fun _ _ => (none : Option ℚ)) "SOL").prev_surplus +
        net_vat [] (fmtPeriod 2024 3) "SOL" ∧
     get_prev_month_year_str 2024 "March" = some (prevPeriod 2024 3)) := by
  refine ⟨⟨rfl, by decide⟩, ?_⟩
  exact C2_balance_formula.1 [] 2024 "March" 3 (fun _ _ => none) _ _ rfl (by decide) rfl
    "SOL" _ (List.mem_cons_self _ _)

/-- Claim C10: one recomputation mutates the carry-forward store only at
the keys `(company, selected period)` for the known companies: every key
with a different period is unchanged (so the previous-period lookup never
inserts), companies outside the fixed set are untouched, and for each
known company the selected period's entry is written (negative balance)
or deleted (otherwise). -/
theorem C10_store_frame :
    ∀ (ts : List Transaction) (year : ℕ) (mn : String) (m : ℕ) (st stF : CFStore)
      (vs : List (String × CompanyView)),
      monthNum mn = some m → 2 ≤ year →
      update_live_data_display ts year mn st = some (stF, vs) →
      (∀ c p, p ≠ fmtPeriod year m → stF c p = st c p) ∧
      (∀ c, c ∉ COMPANIES → ∀ p, stF c p = st c p) ∧
      (∀ c, c ∈ COMPANIES →
        stF c (fmtPeriod year m) =
          if (companyView ts (fmtPeriod year m) (prevPeriod year m) st c).balance < 0
          then some (quantize_decimal
                 (companyView ts (fmtPeriod year m) (prevPeriod year m) st c).balance)
          else none) ∧
      (∀ c, stF c (prevPeriod year m) = st c (prevPeriod year m)) := by
  intro ts year mn m st stF vs hm hy h
  obtain ⟨hb1, hb2⟩ := monthNum_bounds mn m hm
  have hne : prevPeriod year m ≠ fmtPeriod year m :=
    (fmtPeriod_ne_prevPeriod year m hb1 hb2).symm
  obtain ⟨hst, hvs⟩ := update_live_data_display_eq ts year mn m st stF vs hm h
  subst hst
  have hframe : ∀ c p, p ≠ fmtPeriod year m →
      updateCarryForward
        (updateCarryForward st "SOL" (fmtPeriod year m)
          (companyView ts (fmtPeriod year m) (prevPeriod year m) st "SOL").balance)
        "HELO" (fmtPeriod year m)
        (companyView ts (fmtPeriod year m) (prevPeriod year m)
          (updateCarryForward st "SOL" (fmtPeriod year m)
            (companyView ts (fmtPeriod year m) (prevPeriod year m) st "SOL").balance)
          "HELO").balance c p = st c p := by
    intro c p hp
    exact store_read_after_run st (fmtPeriod year m) _ _ c p hp
  refine ⟨hframe, ?_, ?_, fun c => hframe c _ hne⟩
  · intro c hc p
    simp only [COMPANIES, List.mem_cons, List.not_mem_nil, or_false, not_or] at hc
    rw [updateCF_other_company _ _ _ _ _ _ hc.2, updateCF_other_company _ _ _ _ _ _ hc.1]
  · intro c hc
    simp only [COMPANIES, List.mem_cons, List.not_mem_nil, or_false] at hc
    rcases hc with rfl | rfl
    · rw [updateCF_other_company _ _ _ _ _ _ (by decide : ("SOL" : String) ≠ "HELO"),
          updateCarryForward_apply, if_pos ⟨rfl, rfl⟩]
    · rw [updateCarryForward_apply, if_pos ⟨rfl, rfl⟩,
          companyView_congr ts (fmtPeriod year m) (prevPeriod year m) _ st "HELO"
            (updateCF_other_company _ _ _ _ _ _ (by decide : ("HELO" : String) ≠ "SOL"))]

theorem C10_store_frame_witness :
    (monthNum "March" = some 3 ∧ 2 ≤ 2024) ∧
    (∀ c, c ∉ COMPANIES → ∀ p,
      (updateCarryForward
        (updateCarryForward (fun _ _ => (none : Option ℚ)) "SOL" (fmtPeriod 2024 3)
          (companyView [] (fmtPeriod 2024 3) (prevPeriod 2024 3)
            (fun _ _ => (none : Option ℚ)) "SOL").balance)
        "HELO" (fmtPeriod 2024 3)
        (companyView [] (fmtPeriod 2024 3) (prevPeriod 2024 3)
          (updateCarryForward (fun _ _ => (none : Option ℚ)) "SOL" (fmtPeriod 2024 3)
            (companyView [] (fmtPeriod 2024 3) (prevPeriod 2024 3)
              (fun _ _ => (none : Option ℚ)) "SOL").balance)
          "HELO").balance) c p = (fun (_ _ : String) => (none : Option ℚ)) c p) := by
  refine ⟨⟨rfl, by decide⟩, ?_⟩
  exact (C10_store_frame [] 2024 "March" 3 (fun _ _ => none) _ _ rfl (by decide) rfl).2.1

/-- Claim C3: the recomputation's net VAT is `salesVat - importsVat -
localVat`, where each per-type VAT subtotal sums the (quantized) `vat`
field over exactly the transactions matching the selected period, the
company and that type; transactions with an unknown transaction type are
silently excluded from every subtotal. -/
theorem C3_net_vat_filter :
    (∀ (ts : List Transaction) (year : ℕ) (mn : String) (m : ℕ) (st stF : CFStore)
        (vs : List (String × CompanyView)),
        monthNum mn = some m →
        update_live_data_display ts year mn st = some (stF, vs) →
        ∀ c v, (c, v) ∈ vs →
          v.balance - v.prev_surplus =
            (typeSubtotal ts (fmtPeriod year m) c "Sales").tvsh
              - (typeSubtotal ts (fmtPeriod year m) c "Imports").tvsh
              - (typeSubtotal ts (fmtPeriod year m) c "Local").tvsh) ∧
    (∀ (ts : List Transaction) (cur c ttype : String),
        c ∈ COMPANIES → ttype ∈ TRANSACTION_TYPES →
        (typeSubtotal ts cur c ttype).tvsh =
          ((ts.filter fun t =>
              t.month_year == cur && t.company == c && t.transaction_type == ttype).map
            fun t => quantize_decimal t.vat).sum) ∧
    (∀ (t : Transaction) (ts : List Transaction) (cur c ttype : String),
        t.transaction_type ∉ TRANSACTION_TYPES →
        typeSubtotal (t :: ts) cur c ttype = typeSubtotal ts cur c ttype) := by
  refine ⟨?_, ?_, ?_⟩
  · intro ts year mn m st stF vs hm h c v hmem
    obtain ⟨hst, hvs⟩ := update_live_data_display_eq ts year mn m st stF vs hm h
    subst hvs
    simp only [List.mem_cons, Prod.mk.injEq, List.not_mem_nil, or_false] at hmem
    rcases hmem with ⟨rfl, rfl⟩ | ⟨rfl, rfl⟩ <;>
      · rw [companyView_balance, companyView_prev_surplus]
        simp only [net_vat]
        ring
  · intro ts cur c ttype hc ht
    have h1 : (typeSubtotal ts cur c ttype).tvsh =
        typeColSum ts cur c ttype (fun t => t.vat) := rfl
    rw [h1, typeColSum_eq_sum,
        List.filter_congr (fun t _ => typeMatches_eq cur c ttype hc ht t)]
  · intro t ts cur c ttype ht
    have hmf : typeMatches cur c ttype t = false := by
      simp [typeMatches, ht]
    simp only [typeSubtotal, typeColSum, List.foldl_cons, hmf]
    simp

theorem C3_net_vat_filter_witness :
    (monthNum "March" = some 3 ∧
     "SOL" ∈ COMPANIES ∧ "Sales" ∈ TRANSACTION_TYPES) ∧
    ((companyView [] (fmtPeriod 2024 3) (prevPeriod 2024 3)
        (fun _ _ => (none : Option ℚ)) "SOL").balance -
      (companyView [] (fmtPeriod 2024 3) (prevPeriod 2024 3)
        (fun _ _ => (none : Option ℚ)) "SOL").prev_surplus =
      (typeSubtotal [] (fmtPeriod 2024 3) "SOL" "Sales").tvsh
        - (typeSubtotal [] (fmtPeriod 2024 3) "SOL" "Imports").tvsh
        - (typeSubtotal [] (fmtPeriod 2024 3) "SOL" "Local").tvsh) ∧
    (typeSubtotal [] "2024-03" "SOL" "Sales").tvsh =
      (([] : List Transaction).filter (fun t =>
          t.month_year == "2024-03" && t.company == "SOL" && t.transaction_type == "Sales")
        |>.map fun t => quantize_decimal t.vat).sum := by
  refine ⟨⟨rfl, by decide, by decide⟩, ?_, ?_⟩
  · exact C3_net_vat_filter.1 [] 2024 "March" 3 (fun _ _ => none) _ _ rfl rfl
      "SOL" _ (List.mem_cons_self _ _)
  · exact C3_net_vat_filter.2.1 [] "2024-03" "SOL" "Sales" (by decide) (by decide)

/-- Claim C1: after a recomputation the carry-forward store holds an entry
at `(company, period)` exactly when that period's balance is negative,
with the quantized negative balance as the stored value; a zero or
positive balance leaves no entry; consequently a recomputation for the
following month reads `prevSurplus` equal to the stored value, or 0 when
no entry is stored. -/
theorem C1_carry_forward_invariant :
    ∀ (ts : List Transaction) (year : ℕ) (mn : String) (m : ℕ) (st stF : CFStore)
      (vs : List (String × CompanyView)),
      monthNum mn = some m → 2 ≤ year →
      update_live_data_display ts year mn st = some (stF, vs) →
      ∀ c v, (c, v) ∈ vs →
        (v.balance < 0 → stF c (fmtPeriod year m) = some (quantize_decimal v.balance)) ∧
        (0 ≤ v.balance → stF c (fmtPeriod year m) = none) ∧
        (∀ (ts2 : List Transaction) (year2 : ℕ) (mn2 : String) (m2 : ℕ)
           (stF2 : CFStore) (vs2 : List (String × CompanyView)) (w : CompanyView),
           monthNum mn2 = some m2 →
           prevPeriod year2 m2 = fmtPeriod year m →
           update_live_data_display ts2 year2 mn2 stF = some (stF2, vs2) →
           (c, w) ∈ vs2 →
           w.prev_surplus = (stF c (fmtPeriod year m)).getD 0) := by
  intro ts year mn m st stF vs hm hy h c v hmem
  obtain ⟨hst, hvs⟩ := update_live_data_display_eq ts year mn m st stF vs hm h
  subst hvs hst
  simp only [List.mem_cons, Prod.mk.injEq, List.not_mem_nil, or_false] at hmem
  rcases hmem with ⟨rfl, rfl⟩ | ⟨rfl, rfl⟩
  · refine ⟨?_, ?_, ?_⟩
    · intro hneg
      rw [updateCF_other_company _ _ _ _ _ _ (by decide : ("SOL" : String) ≠ "HELO"),
          updateCarryForward_apply, if_pos ⟨rfl, rfl⟩, if_pos hneg]
    · intro hpos
      rw [updateCF_other_company _ _ _ _ _ _ (by decide : ("SOL" : String) ≠ "HELO"),
          updateCarryForward_apply, if_pos ⟨rfl, rfl⟩, if_neg (not_lt.mpr hpos)]
    · intro ts2 year2 mn2 m2 stF2 vs2 w hm2 hprev2 h2 hmem2
      obtain ⟨hst2, hvs2⟩ := update_live_data_display_eq ts2 year2 mn2 m2 _ stF2 vs2 hm2 h2
      subst hvs2
      simp only [List.mem_cons, Prod.mk.injEq, List.not_mem_nil, or_false] at hmem2
      rcases hmem2 with ⟨-, rfl⟩ | ⟨habs, -⟩
      · rw [companyView_prev_surplus, hprev2]
      · exact absurd habs (by decide)
  · refine ⟨?_, ?_, ?_⟩
    · intro hneg
      rw [updateCarryForward_apply, if_pos ⟨rfl, rfl⟩, if_pos hneg]
    · intro hpos
      rw [updateCarryForward_apply, if_pos ⟨rfl, rfl⟩, if_neg (not_lt.mpr hpos)]
    · intro ts2 year2 mn2 m2 stF2 vs2 w hm2 hprev2 h2 hmem2
      obtain ⟨hst2, hvs2⟩ := update_live_data_display_eq ts2 year2 mn2 m2 _ stF2 vs2 hm2 h2
      subst hvs2
      simp only [List.mem_cons, Prod.mk.injEq, List.not_mem_nil, or_false] at hmem2
      rcases hmem2 with ⟨habs, -⟩ | ⟨-, rfl⟩
      · exact absurd habs (by decide)
      · rw [companyView_prev_surplus,
            updateCF_other_company _ _ _ _ _ _ (by decide : ("HELO" : String) ≠ "SOL"),
            hprev2]

theorem C1_carry_forward_invariant_witness :
    (monthNum "January" = some 1 ∧ 2 ≤ 2024 ∧ monthNum "February" = some 2 ∧
     prevPeriod 2024 2 = fmtPeriod 2024 1 ∧
     (companyView wTransactions (fmtPeriod 2024 1) (prevPeriod 2024 1) wStore "SOL").balance < 0) ∧
    wStoreAfter "SOL" (fmtPeriod 2024 1) =
      some (quantize_decimal
        (companyView wTransactions (fmtPeriod 2024 1) (prevPeriod 2024 1) wStore "SOL").balance) ∧
    (companyView [] (fmtPeriod 2024 2) (prevPeriod 2024 2) wStoreAfter "SOL").prev_surplus =
      (wStoreAfter "SOL" (fmtPeriod 2024 1)).getD 0 := by
  have hneg : (companyView wTransactions (fmtPeriod 2024 1) (prevPeriod 2024 1)
      wStore "SOL").balance < 0 := by
    simp [companyView, net_vat, typeSubtotal, typeColSum, typeMatches, wTransactions, wStore,
      COMPANIES, TRANSACTION_TYPES, show fmtPeriod 2024 1 = "2024-01" from rfl]
    norm_num [quantize_decimal, rhaz]
  have happ := C1_carry_forward_invariant wTransactions 2024 "January" 1 wStore wStoreAfter _
    rfl (by decide) rfl "SOL" _ (List.mem_cons_self _ _)
  exact ⟨⟨rfl, by decide, rfl, rfl, hneg⟩, happ.1 hneg,
         happ.2.2 [] 2024 "February" 2 _ _ _ rfl rfl rfl (List.mem_cons_self _ _)⟩

/-- Claim C4: the recomputation is idempotent: running it again with the
same transactions and the same selected period yields the same list of
company views and leaves the carry-forward store pointwise unchanged
(values are overwritten, not accumulated). -/
theorem C4_idempotent :
    ∀ (ts : List Transaction) (year : ℕ) (mn : String) (m : ℕ) (st stF : CFStore)
      (vs : List (String × CompanyView)),
      monthNum mn = some m → 2 ≤ year →
      update_live_data_display ts year mn st = some (stF, vs) →
      ∃ stF2 vs2,
        update_live_data_display ts year mn stF = some (stF2, vs2) ∧
        vs2 = vs ∧ (∀ c p, stF2 c p = stF c p) := by
  intro ts year mn m st stF vs hm hy h
  obtain ⟨hb1, hb2⟩ := monthNum_bounds mn m hm
  have hne : prevPeriod year m ≠ fmtPeriod year m :=
    (fmtPeriod_ne_prevPeriod year m hb1 hb2).symm
  obtain ⟨hst, hvs⟩ := update_live_data_display_eq ts year mn m st stF vs hm h
  have hw1 : companyView ts (fmtPeriod year m) (prevPeriod year m) stF "SOL" =
      companyView ts (fmtPeriod year m) (prevPeriod year m) st "SOL" := by
    rw [hst]
    exact view_after_run ts (fmtPeriod year m) (prevPeriod year m) st _ _ "SOL" hne
  have hw2 : companyView ts (fmtPeriod year m) (prevPeriod year m)
      (updateCarryForward stF "SOL" (fmtPeriod year m)
        (companyView ts (fmtPeriod year m) (prevPeriod year m) st "SOL").balance) "HELO" =
      companyView ts (fmtPeriod year m) (prevPeriod year m)
        (updateCarryForward st "SOL" (fmtPeriod year m)
          (companyView ts (fmtPeriod year m) (prevPeriod year m) st "SOL").balance) "HELO" := by
    apply companyView_congr
    rw [updateCF_other_company _ _ _ _ _ _ (by decide : ("HELO" : String) ≠ "SOL"), hst,
        updateCarryForward_frame _ _ _ _ _ _ (fun hk => hne hk.2),
        updateCF_other_company _ _ _ _ _ _ (by decide : ("HELO" : String) ≠ "SOL")]
  refine ⟨(recomputeAux ts (fmtPeriod year m) (prevPeriod year m) COMPANIES stF).1,
          (recomputeAux ts (fmtPeriod year m) (prevPeriod year m) COMPANIES stF).2,
          by simp only [update_live_data_display, hm], ?_, ?_⟩
  · rw [recomputeAux_companies, hvs]
    simp only
    rw [hw1, hw2]
  · intro c p
    rw [recomputeAux_companies]
    simp only
    rw [hw1, hw2]
    conv_rhs => rw [hst]
    simp only [updateCarryForward_apply]
    by_cases h2 : c = "HELO" ∧ p = fmtPeriod year m <;>
      by_cases h1 : c = "SOL" ∧ p = fmtPeriod year m <;>
        simp [h1, h2, hst, updateCarryForward_apply]

theorem C4_idempotent_witness :
    (monthNum "January" = some 1 ∧ 2 ≤ 2024 ∧
     update_live_data_display wTransactions 2024 "January" wStore =
       some (wStoreAfter,
         (recomputeAux wTransactions (fmtPeriod 2024 1) (prevPeriod 2024 1) COMPANIES wStore).2)) ∧
    (∃ stF2 vs2,
      update_live_data_display wTransactions 2024 "January" wStoreAfter = some (stF2, vs2) ∧
      vs2 = (recomputeAux wTransactions (fmtPeriod 2024 1) (prevPeriod 2024 1) COMPANIES wStore).2 ∧
      (∀ c p, stF2 c p = wStoreAfter c p)) :=
  ⟨⟨rfl, by decide, rfl⟩,
   C4_idempotent wTransactions 2024 "January" 1 wStore wStoreAfter _ rfl (by decide) rfl⟩
